import Mathlib

/-!
Verification of the `session` crate: a time-bounded key-value registry for
session handles (`src/session.rs`, `SessionLayer`) and a mutable-session
layer that wraps each payload in an exclusive async lock
(`src/mut_session.rs`, `MutSessionLayer`).

Shallow embedding conventions:
* `Instant` and `Duration` are natural numbers (nanoseconds of the
  monotonic clock).  Rust's `Instant` subtraction saturates at zero, as
  does `Nat` subtraction.
* The `HashMap` is embedded as an association list with unique keys
  (uniqueness is the `HashMap` invariant and is threaded as a `Nodup`
  hypothesis where a proof needs it).
* Stateful methods take the current instant `now` explicitly and return
  the updated state; `&self` mutation becomes explicit state passing.
* `Arc<TokioMutex<T>>` handles are embedded as addresses (`Nat`) into a
  heap of lock states held by `MutSessionLayer`.
-/

namespace SessionCrate

/-- A monotonic-clock instant, in nanoseconds. -/
abbrev Instant := Nat

/-- A duration, in nanoseconds. -/
abbrev Duration := Nat

/-- One registry entry: the stored session handle together with its
last-access timestamp (`(SessionHandle, Mutex<Instant>)` in the source). -/
abbrev Entry (K H : Type) := K × H × Instant

/-- `SessionLayer` from `src/session.rs`: the map from key to
(handle, last-access timestamp), plus the expiry timeout. -/
structure SessionLayer (K H : Type) where
  key_to_session : List (Entry K H)
  timeout : Duration
  deriving Repr, DecidableEq

variable {K H : Type}

/-- The keys currently stored in the map. -/
def entryKeys (m : List (Entry K H)) : List K := m.map (fun e => e.1)

/-- Association-list lookup: the `HashMap::get` of the embedding, returning
the handle and timestamp stored under `key`. -/
def lookupEntry [DecidableEq K] (m : List (Entry K H)) (key : K) : Option (H × Instant) :=
  match m with
  | [] => none
  | (k, h, t) :: rest => if k = key then some (h, t) else lookupEntry rest key

/-- Overwrite the timestamp of the entry stored under `key` with `now`
(the `*time = Instant::now()` store performed by `SessionLayer::get`). -/
def touchEntry [DecidableEq K] (m : List (Entry K H)) (key : K) (now : Instant) :
    List (Entry K H) :=
  match m with
  | [] => []
  | (k, h, t) :: rest =>
    if k = key then (k, h, now) :: rest else (k, h, t) :: touchEntry rest key now

/-- `SessionLayer::new(timeout)` builds the registry state: an empty map and
the timeout.  (The spawned sweep task is modelled separately by
`sweepPerformed`.)  Construction is total: it cannot fail. -/
def SessionLayer.new (timeout : Duration) : SessionLayer K H :=
  { key_to_session := [], timeout := timeout }

/-- The interval the background sweep task sleeps between sweeps:
`timeout.div_f64(2.0)`, i.e. half the timeout. -/
def sweepInterval (timeout : Duration) : Duration := timeout / 2

/-- `SessionLayer::remove_outdated`: compute one `now`, then retain exactly
the entries with `now - time < timeout`. -/
def SessionLayer.remove_outdated (s : SessionLayer K H) (now : Instant) : SessionLayer K H :=
  { s with key_to_session :=
      s.key_to_session.filter (fun e => decide (now - e.2.2 < s.timeout)) }

/-- `SessionLayer::get(key)`: on hit, set the entry's timestamp to `now` and
return a clone of the handle; on miss return `none`.  The updated registry
state is returned alongside the result. -/
def SessionLayer.get [DecidableEq K] (s : SessionLayer K H) (key : K) (now : Instant) :
    Option H × SessionLayer K H :=
  match lookupEntry s.key_to_session key with
  | none => (none, s)
  | some (h, _) =>
    (some h, { s with key_to_session := touchEntry s.key_to_session key now })

/-- `SessionCollision` from `src/session.rs`: the collision error carrying
back the handle the caller tried to insert (`pub SessionHandle` field). -/
structure SessionCollision (H : Type) where
  handle : H
  deriving Repr, DecidableEq

/-- `SessionLayer::insert(key, session)`: fail with `SessionCollision`
carrying `session` if the key is present, otherwise add the entry with its
timestamp set to `now`.  The (possibly unchanged) registry state is returned
alongside the result. -/
def SessionLayer.insert [DecidableEq K] (s : SessionLayer K H) (key : K) (session : H)
    (now : Instant) : Except (SessionCollision H) Unit × SessionLayer K H :=
  if (lookupEntry s.key_to_session key).isSome then
    (.error ⟨session⟩, s)
  else
    (.ok (), { s with key_to_session := (key, session, now) :: s.key_to_session })

/-!
The background sweep task spawned by `SessionLayer::new`:

```
let weak_this = Arc::downgrade(&this);
let check = timeout.div_f64(2.0);
tokio::spawn(async move {
    loop {
        tokio::time::sleep(check).await;
        let this = weak_this.upgrade()?;
        this.remove_outdated();
    }
})
```

We model the loop over an aliveness trace `alive : Nat → Bool`, where
`alive i` records whether the weak-to-strong upgrade succeeds at tick `i`
(i.e. whether a strong reference to the registry still exists then).  The
loop exits at the first failed upgrade, so tick `i` performs a sweep iff
every upgrade up to and including tick `i` succeeded.
-/

/-- Whether the sweep loop performs a sweep at tick `i`: it does iff the
weak-reference upgrade succeeded at every tick `≤ i` (the loop terminates
at the first failed upgrade and never runs again). -/
def sweepPerformed (alive : Nat → Bool) : Nat → Bool
  | 0 => alive 0
  | i + 1 => sweepPerformed alive i && alive (i + 1)

/-!
`MutSessionLayer` from `src/mut_session.rs`.  The stored handle type is
`Session<MutSession> = Arc<TokioMutex<MutSession>>`; we embed each such
handle as an address (`Nat`) into a heap of lock cells carried by the
layer: `locked a` is the lock bit of cell `a`, `payload a` its contents,
and `next` the allocation counter for fresh cells.
-/

/-- `MutSessionLayer` state: the inner registry (storing lock addresses as
handles) together with the heap of `Arc<TokioMutex<_>>` cells. -/
structure MutSessionLayer (K V : Type) where
  session : SessionLayer K Nat
  locked : Nat → Bool
  payload : Nat → V
  next : Nat

/-- `MutSessionCollision` from `src/mut_session.rs`: a unit error type; it
carries neither the wrapped lock nor the payload. -/
structure MutSessionCollision where
  deriving Repr, DecidableEq

variable {V : Type}

/-- `MutSessionLayer::new(timeout)`: wraps `SessionLayer::new` with an empty
heap. -/
def MutSessionLayer.new (timeout : Duration) (dflt : V) : MutSessionLayer K V :=
  { session := SessionLayer.new timeout
    locked := fun _ => false
    payload := fun _ => dflt
    next := 0 }

/-- `MutSessionLayer::insert(key, mut_session)`: wrap the payload in a fresh
unlocked `TokioMutex` cell, delegate to `SessionLayer::insert`, and map a
collision to the fieldless `MutSessionCollision` (dropping the rejected
wrapped lock).  The updated layer state is returned alongside the result. -/
def MutSessionLayer.insert [DecidableEq K] (m : MutSessionLayer K V) (key : K) (v : V) :
    Instant → Except MutSessionCollision Unit × MutSessionLayer K V := fun now =>
  let addr := m.next
  match m.session.insert key addr now with
  | (.error _, _) => (.error ⟨⟩, m)
  | (.ok (), s) =>
    (.ok (),
      { session := s
        locked := fun a => if a = addr then false else m.locked a
        payload := fun a => if a = addr then v else m.payload a
        next := addr + 1 })

/-- Result of `MutSessionLayer::get_mut`.  `absent` is the `None` path
(registry miss); `blocked st` is the state in which the call is suspended
awaiting the session's exclusive lock (the registry touch `st` has already
happened); `acquired g st` is completion with owned guard `g`. -/
inductive GetMutOutcome (K V : Type) where
  | absent
  | blocked (st : MutSessionLayer K V)
  | acquired (g : Nat) (st : MutSessionLayer K V)

/-- `MutSessionLayer::get_mut(key)`: delegate to `SessionLayer::get`
(clone + touch); on miss return `None`; otherwise await `lock_owned` on the
cloned `Arc<TokioMutex<_>>` — completing immediately with an owned guard
when the lock is free, and suspending while another guard is live. -/
def MutSessionLayer.get_mut [DecidableEq K] (m : MutSessionLayer K V) (key : K)
    (now : Instant) : GetMutOutcome K V :=
  match m.session.get key now with
  | (none, _) => .absent
  | (some addr, s) =>
    let m' := { m with session := s }
    if m.locked addr then .blocked m'
    else .acquired addr { m' with locked := fun a => if a = addr then true else m.locked a }

/-- Dereference an owned guard: read the payload it protects. -/
def guardRead (m : MutSessionLayer K V) (g : Nat) : V := m.payload g

/-- Mutate the payload through an owned guard. -/
def guardWrite (m : MutSessionLayer K V) (g : Nat) (v : V) : MutSessionLayer K V :=
  { m with payload := fun a => if a = g then v else m.payload a }

/-- Drop an owned guard: release the lock it holds. -/
def guardDrop (m : MutSessionLayer K V) (g : Nat) : MutSessionLayer K V :=
  { m with locked := fun a => if a = g then false else m.locked a }

/-- The guard returned by a completed `get_mut`, if any. -/
def getMutGuard : GetMutOutcome K V → Option Nat
  | .acquired g _ => some g
  | _ => none

/-- The layer state after a `get_mut` call, with `fallback` for the
`absent` path (on which the layer is untouched). -/
def getMutState (fallback : MutSessionLayer K V) : GetMutOutcome K V → MutSessionLayer K V
  | .absent => fallback
  | .blocked st => st
  | .acquired _ st => st

/-!
Concurrent semantics.  Several tasks share one `MutSessionLayer`; the only
suspension point is `lock_owned().await` inside `get_mut`.  We model the
system as a labelled transition system whose state is the layer plus the
multiset of live owned guards, each tagged with the task that holds it.
`lock_owned` completes for a task only when no live guard exists for that
lock — exactly the exclusion the tokio mutex provides.
-/

/-- A task identifier. -/
abbrev TaskId := Nat

/-- Global state of the concurrent system: the shared layer and the list of
live owned guards `(task, lock address)`. -/
structure ConcState (K V : Type) where
  layer : MutSessionLayer K V
  guards : List (TaskId × Nat)

/-- Interleaved steps of the concurrent system.  `acquire` is the
completion of a `get_mut` (registry touch plus `lock_owned` resolving); its
side condition — no live guard on the same lock — is the tokio mutex's
exclusivity.  `mutate` and `dropGuard` are a guard holder using and
dropping its guard; `insertStep` and `sweep` are the remaining operations
on the shared layer. -/
inductive ConcStep [DecidableEq K] : ConcState K V → ConcState K V → Prop
  | acquire (task : TaskId) (key : K) (now : Instant) (addr : Nat)
      (s : SessionLayer K Nat) (l : MutSessionLayer K V) (gs : List (TaskId × Nat)) :
      l.session.get key now = (some addr, s) →
      (∀ t, (t, addr) ∉ gs) →
      ConcStep ⟨l, gs⟩
        ⟨{ l with
            session := s
            locked := fun a => if a = addr then true else l.locked a },
          (task, addr) :: gs⟩
  | mutate (task : TaskId) (addr : Nat) (v : V) (l : MutSessionLayer K V)
      (gs : List (TaskId × Nat)) :
      (task, addr) ∈ gs →
      ConcStep ⟨l, gs⟩ ⟨guardWrite l addr v, gs⟩
  | dropGuard (task : TaskId) (addr : Nat) (l : MutSessionLayer K V)
      (gs : List (TaskId × Nat)) :
      (task, addr) ∈ gs →
      ConcStep ⟨l, gs⟩ ⟨guardDrop l addr, gs.erase (task, addr)⟩
  | insertStep (key : K) (v : V) (now : Instant) (l l' : MutSessionLayer K V)
      (r : Except MutSessionCollision Unit) (gs : List (TaskId × Nat)) :
      l.insert key v now = (r, l') →
      ConcStep ⟨l, gs⟩ ⟨l', gs⟩
  | sweep (now : Instant) (l : MutSessionLayer K V) (gs : List (TaskId × Nat)) :
      ConcStep ⟨l, gs⟩ ⟨{ l with session := l.session.remove_outdated now }, gs⟩

/-- Reachability of concurrent states from an initial state. -/
def ConcReachable [DecidableEq K] (init s : ConcState K V) : Prop :=
  Relation.ReflTransGen ConcStep init s

/-- The initial concurrent state: a freshly created layer and no live
guards. -/
def ConcState.init (timeout : Duration) (dflt : V) : ConcState K V :=
  ⟨MutSessionLayer.new timeout dflt, []⟩

/-!
Operation sequences over the base registry, for the timestamp-monotonicity
invariant: each operation carries the instant at which it runs, and a
monotonic clock makes those instants non-decreasing and no earlier than any
timestamp already stored.
-/

/-- One registry operation. -/
inductive RegOp (K H : Type) where
  | getOp (key : K)
  | insertOp (key : K) (h : H)
  | sweepOp

/-- Apply one registry operation at instant `now`, keeping the state
(results are discarded; a failed insert leaves the state unchanged). -/
def applyOp [DecidableEq K] (s : SessionLayer K H) : RegOp K H → Instant → SessionLayer K H
  | .getOp key, now => (s.get key now).2
  | .insertOp key h, now => (s.insert key h now).2
  | .sweepOp, now => s.remove_outdated now

/-- Run a sequence of timed registry operations from `s`. -/
def runOps [DecidableEq K] (s : SessionLayer K H) : List (RegOp K H × Instant) → SessionLayer K H
  | [] => s
  | (op, now) :: rest => runOps (applyOp s op now) rest

/-- All timestamps stored in the map are at most `n`. -/
def stampsLE (m : List (Entry K H)) (n : Instant) : Prop :=
  ∀ e ∈ m, e.2.2 ≤ n

/-- The instants of a timed operation sequence are non-decreasing and start
no earlier than `n` (a monotonic clock). -/
def timesMono (n : Instant) : List (RegOp K H × Instant) → Prop
  | [] => True
  | (_, now) :: rest => n ≤ now ∧ timesMono now rest

/-!  Helper lemmas about the association-list embedding of the map. -/

theorem lookupEntry_eq_none [DecidableEq K] (m : List (Entry K H)) (key : K) :
    lookupEntry m key = none ↔ key ∉ entryKeys m := by
  induction m with
  | nil => simp [lookupEntry, entryKeys]
  | cons e rest ih =>
    obtain ⟨k, h, t⟩ := e
    by_cases hk : k = key
    · subst hk
      simp [lookupEntry, entryKeys]
    · simp [lookupEntry, entryKeys, hk, ih, Ne.symm hk]

theorem mem_of_lookupEntry [DecidableEq K] {m : List (Entry K H)} {key : K} {h : H}
    {t : Instant} (hl : lookupEntry m key = some (h, t)) : (key, h, t) ∈ m := by
  induction m with
  | nil => simp [lookupEntry] at hl
  | cons e rest ih =>
    obtain ⟨k, h', t'⟩ := e
    by_cases hk : k = key
    · subst hk
      simp [lookupEntry] at hl
      simp [hl]
    · simp [lookupEntry, hk] at hl
      exact List.mem_cons_of_mem _ (ih hl)

theorem lookupEntry_touch_self [DecidableEq K] (m : List (Entry K H)) (key : K)
    (now : Instant) :
    lookupEntry (touchEntry m key now) key = (lookupEntry m key).map (fun p => (p.1, now)) := by
  induction m with
  | nil => simp [lookupEntry, touchEntry]
  | cons e rest ih =>
    obtain ⟨k, h, t⟩ := e
    by_cases hk : k = key <;> simp [lookupEntry, touchEntry, hk, ih]

theorem lookupEntry_touch_ne [DecidableEq K] (m : List (Entry K H)) {key k : K}
    (now : Instant) (hne : k ≠ key) :
    lookupEntry (touchEntry m key now) k = lookupEntry m k := by
  induction m with
  | nil => simp [touchEntry]
  | cons e rest ih =>
    obtain ⟨k', h, t⟩ := e
    by_cases hk' : k' = key
    · subst hk'
      simp [lookupEntry, touchEntry, Ne.symm hne]
    · by_cases hkk : k' = k
      · subst hkk
        simp [lookupEntry, touchEntry, hk']
      · simp [lookupEntry, touchEntry, hk', hkk, ih]

theorem keyHandles_touch [DecidableEq K] (m : List (Entry K H)) (key : K) (now : Instant) :
    (touchEntry m key now).map (fun e => (e.1, e.2.1)) = m.map (fun e => (e.1, e.2.1)) := by
  induction m with
  | nil => rfl
  | cons e rest ih =>
    obtain ⟨k, h, t⟩ := e
    by_cases hk : k = key <;> simp [touchEntry, hk, ih]

theorem entryKeys_touch [DecidableEq K] (m : List (Entry K H)) (key : K) (now : Instant) :
    entryKeys (touchEntry m key now) = entryKeys m := by
  induction m with
  | nil => rfl
  | cons e rest ih =>
    obtain ⟨k, h, t⟩ := e
    by_cases hk : k = key
    · simp [touchEntry, entryKeys, hk]
    · simpa [touchEntry, entryKeys, hk] using ih

theorem mem_touchEntry [DecidableEq K] {m : List (Entry K H)} {key : K} {now : Instant}
    {e : Entry K H} (he : e ∈ touchEntry m key now) : e ∈ m ∨ e.2.2 = now := by
  induction m with
  | nil => simp [touchEntry] at he
  | cons e' rest ih =>
    obtain ⟨k, h, t⟩ := e'
    by_cases hk : k = key
    · subst hk
      simp [touchEntry] at he
      rcases he with rfl | he
      · right; rfl
      · left; exact List.mem_cons_of_mem _ he
    · simp [touchEntry, hk] at he
      rcases he with rfl | he
      · left; exact List.mem_cons_self _ _
      · rcases ih he with h' | h'
        · left; exact List.mem_cons_of_mem _ h'
        · right; exact h'

theorem lookupEntry_filter [DecidableEq K] {m : List (Entry K H)}
    (hnd : (entryKeys m).Nodup) (p : Entry K H → Bool) (key : K) :
    lookupEntry (m.filter p) key =
      match lookupEntry m key with
      | none => none
      | some (h, t) => if p (key, h, t) then some (h, t) else none := by
  induction m with
  | nil => simp [lookupEntry]
  | cons e rest ih =>
    obtain ⟨k, h, t⟩ := e
    simp only [entryKeys, List.map_cons, List.nodup_cons] at hnd
    obtain ⟨hk_notin, hnd_rest⟩ := hnd
    by_cases hk : k = key
    · subst hk
      by_cases hp : p (k, h, t)
      · simp [List.filter_cons, hp, lookupEntry]
      · have hnone' : lookupEntry (rest.filter p) k = none := by
          rw [lookupEntry_eq_none]
          intro hmem
          apply hk_notin
          have hsub : entryKeys (rest.filter p) ⊆ entryKeys rest := by
            intro x hx
            simp only [entryKeys, List.mem_map] at hx ⊢
            obtain ⟨e', he', rfl⟩ := hx
            exact ⟨e', List.mem_of_mem_filter he', rfl⟩
          simpa [entryKeys] using hsub hmem
        simp [List.filter_cons, hp, lookupEntry, hnone']
    · by_cases hp : p (k, h, t) <;>
        simp [List.filter_cons, hp, lookupEntry, hk, ih hnd_rest]

theorem entryKeys_filter_nodup [DecidableEq K] {m : List (Entry K H)}
    (hnd : (entryKeys m).Nodup) (p : Entry K H → Bool) :
    (entryKeys (m.filter p)).Nodup := by
  apply hnd.sublist
  simp only [entryKeys]
  exact (List.filter_sublist m).map _

/-!  Claim theorems. -/

/-- C1: `SessionLayer::insert(key, handle)` succeeds and adds the entry with
its last-access timestamp set to `now` when the key is absent; when the key
is already present it fails with a `SessionCollision` carrying back the
exact handle the caller tried to insert, and the map — including the
existing entry's handle and timestamp — is left unchanged. -/
theorem SessionLayer.insert_spec [DecidableEq K] (s : SessionLayer K H) (key : K)
    (h : H) (now : Instant) :
    (lookupEntry s.key_to_session key = none →
      s.insert key h now =
        (.ok (), { s with key_to_session := (key, h, now) :: s.key_to_session })) ∧
    ((lookupEntry s.key_to_session key).isSome →
      s.insert key h now = (.error ⟨h⟩, s)) := by
  constructor
  · intro habs
    simp [SessionLayer.insert, habs]
  · intro hpres
    simp [SessionLayer.insert, hpres]

/-- Witness for C1 at concrete inputs: inserting key `1` into an empty
registry succeeds and records timestamp `3`; inserting key `1` again fails
with the rejected handle `99` and leaves the map unchanged. -/
theorem SessionLayer.insert_spec_witness :
    (SessionLayer.insert (K := Nat) (H := Nat) ⟨[], 5⟩ 1 10 3 =
      (.ok (), ⟨[(1, 10, 3)], 5⟩)) ∧
    (SessionLayer.insert (K := Nat) (H := Nat) ⟨[(1, 10, 3)], 5⟩ 1 99 7 =
      (.error ⟨99⟩, ⟨[(1, 10, 3)], 5⟩)) :=
  ⟨(SessionLayer.insert_spec ⟨[], 5⟩ 1 10 3).1 (by decide),
   (SessionLayer.insert_spec ⟨[(1, 10, 3)], 5⟩ 1 99 7).2 (by decide)⟩

/-- C2: a single sweep (`remove_outdated`) at one `now` retains an entry
`(key, h, t)` iff `now - t < timeout`; equivalently it removes exactly the
entries with `now - last_access ≥ timeout`, so a key touched within the
timeout window is never removed by that sweep. -/
theorem SessionLayer.remove_outdated_spec [DecidableEq K] (s : SessionLayer K H)
    (now : Instant) (key : K) (h : H) (t : Instant)
    (hnd : (entryKeys s.key_to_session).Nodup) :
    lookupEntry (s.remove_outdated now).key_to_session key = some (h, t) ↔
      (lookupEntry s.key_to_session key = some (h, t) ∧ now - t < s.timeout) := by
  show lookupEntry (s.key_to_session.filter _) key = _ ↔ _
  rw [lookupEntry_filter hnd]
  cases hl : lookupEntry s.key_to_session key with
  | none => simp
  | some p =>
    obtain ⟨h', t'⟩ := p
    by_cases hc : now - t' < s.timeout
    · simp only [hc, decide_eq_true_eq, if_pos, Option.some.injEq, Prod.mk.injEq]
      constructor
      · rintro ⟨rfl, rfl⟩
        exact ⟨⟨rfl, rfl⟩, hc⟩
      · rintro ⟨⟨rfl, rfl⟩, _⟩
        exact ⟨rfl, rfl⟩
    · simp only [decide_eq_true_eq]
      rw [if_neg hc]
      constructor
      · intro hfalse
        exact Option.noConfusion hfalse
      · rintro ⟨heq, hcontra⟩
        obtain ⟨rfl, rfl⟩ : h' = h ∧ t' = t := by simpa using heq
        exact absurd hcontra hc

/-- Witness for C2 at concrete inputs: with timeout `4` and `now = 6`, the
entry touched at `5` (age `1`) is retained. -/
theorem SessionLayer.remove_outdated_spec_witness :
    lookupEntry
        ((SessionLayer.mk (K := Nat) (H := Nat) [(1, 10, 0), (2, 20, 5)] 4).remove_outdated
          6).key_to_session 2 = some (20, 5) ↔
      (lookupEntry [(1, 10, 0), (2, 20, 5)] 2 = some (20, 5) ∧ 6 - 5 < 4) :=
  SessionLayer.remove_outdated_spec ⟨[(1, 10, 0), (2, 20, 5)], 4⟩ 6 2 20 5 (by decide)

/-- C3: `SessionLayer::get(key)` returns `none` when the key is absent
(absence is not an error); when the key is present it returns a clone of
the stored handle and updates that entry's last-access timestamp to
`now`. -/
theorem SessionLayer.get_spec [DecidableEq K] (s : SessionLayer K H) (key : K)
    (now : Instant) :
    (lookupEntry s.key_to_session key = none → s.get key now = (none, s)) ∧
    (∀ h t, lookupEntry s.key_to_session key = some (h, t) →
      (s.get key now).1 = some h ∧
      lookupEntry (s.get key now).2.key_to_session key = some (h, now)) := by
  constructor
  · intro habs
    simp [SessionLayer.get, habs]
  · intro h t hl
    simp [SessionLayer.get, hl, lookupEntry_touch_self]

/-- Witness for C3 at concrete inputs: `get 2` on an absent key returns
`none` and leaves the state; `get 1` on a present key returns the stored
handle `10` and re-stamps the entry to `8`. -/
theorem SessionLayer.get_spec_witness :
    (SessionLayer.get (K := Nat) (H := Nat) ⟨[(1, 10, 3)], 5⟩ 2 8 =
      (none, ⟨[(1, 10, 3)], 5⟩)) ∧
    ((SessionLayer.get (K := Nat) (H := Nat) ⟨[(1, 10, 3)], 5⟩ 1 8).1 = some 10 ∧
      lookupEntry (SessionLayer.get (K := Nat) (H := Nat)
        ⟨[(1, 10, 3)], 5⟩ 1 8).2.key_to_session 1 = some (10, 8)) :=
  ⟨(SessionLayer.get_spec ⟨[(1, 10, 3)], 5⟩ 2 8).1 (by decide),
   (SessionLayer.get_spec ⟨[(1, 10, 3)], 5⟩ 1 8).2 10 3 (by decide)⟩

/-- C9 (frame): a `get` that misses changes nothing at all; a `get` that
hits changes only the looked-up entry's timestamp — the timeout, the
key-to-handle association (hence the key set and every handle), and every
other key's stored entry are unchanged. -/
theorem SessionLayer.get_frame [DecidableEq K] (s : SessionLayer K H) (key : K)
    (now : Instant) :
    ((s.get key now).1 = none → (s.get key now).2 = s) ∧
    (∀ h t, lookupEntry s.key_to_session key = some (h, t) →
      (s.get key now).2.timeout = s.timeout ∧
      (s.get key now).2.key_to_session.map (fun e => (e.1, e.2.1)) =
        s.key_to_session.map (fun e => (e.1, e.2.1)) ∧
      (∀ k, k ≠ key →
        lookupEntry (s.get key now).2.key_to_session k =
          lookupEntry s.key_to_session k) ∧
      lookupEntry (s.get key now).2.key_to_session key = some (h, now)) := by
  constructor
  · intro hmiss
    cases hl : lookupEntry s.key_to_session key with
    | none => simp [SessionLayer.get, hl]
    | some p =>
      obtain ⟨h, t⟩ := p
      rw [SessionLayer.get] at hmiss
      simp [hl] at hmiss
  · intro h t hl
    refine ⟨by simp [SessionLayer.get, hl], ?_, ?_, ?_⟩
    · simp [SessionLayer.get, hl, keyHandles_touch]
    · intro k hk
      simp [SessionLayer.get, hl, lookupEntry_touch_ne _ _ hk]
    · simp [SessionLayer.get, hl, lookupEntry_touch_self]

/-- Witness for C9 at concrete inputs: a hit on key `1` keeps the timeout,
the key-handle association, and key `2`'s entry, while re-stamping key
`1`. -/
theorem SessionLayer.get_frame_witness :
    (SessionLayer.get (K := Nat) (H := Nat)
        ⟨[(1, 10, 3), (2, 20, 4)], 5⟩ 1 8).2.timeout = 5 ∧
    (SessionLayer.get (K := Nat) (H := Nat)
        ⟨[(1, 10, 3), (2, 20, 4)], 5⟩ 1 8).2.key_to_session.map
        (fun e => (e.1, e.2.1)) =
      [(1, 10, 3), (2, 20, 4)].map (fun e => (e.1, e.2.1)) ∧
    (∀ k, k ≠ 1 →
      lookupEntry (SessionLayer.get (K := Nat) (H := Nat)
        ⟨[(1, 10, 3), (2, 20, 4)], 5⟩ 1 8).2.key_to_session k =
        lookupEntry [(1, 10, 3), (2, 20, 4)] k) ∧
    lookupEntry (SessionLayer.get (K := Nat) (H := Nat)
        ⟨[(1, 10, 3), (2, 20, 4)], 5⟩ 1 8).2.key_to_session 1 = some (10, 8) :=
  (SessionLayer.get_frame ⟨[(1, 10, 3), (2, 20, 4)], 5⟩ 1 8).2 10 3 (by decide)

/-- C10: for a registry whose timeout is zero, a sweep removes every entry
(the retain condition `now - last_access < 0` is unsatisfiable), and
construction with a zero timeout does not fail — `new 0` yields the empty
registry with timeout `0`. -/
theorem SessionLayer.zero_timeout_spec (s : SessionLayer K H) (now : Instant)
    (h0 : s.timeout = 0) :
    (s.remove_outdated now).key_to_session = [] ∧
    SessionLayer.new (K := K) (H := H) 0 = { key_to_session := [], timeout := 0 } := by
  refine ⟨?_, rfl⟩
  simp [SessionLayer.remove_outdated, h0]

/-- Witness for C10 at concrete inputs: with timeout `0`, even an entry
stamped at the current instant is swept away. -/
theorem SessionLayer.zero_timeout_spec_witness :
    ((SessionLayer.mk (K := Nat) (H := Nat) [(1, 10, 6), (2, 20, 0)] 0).remove_outdated
        6).key_to_session = [] ∧
    SessionLayer.new (K := Nat) (H := Nat) 0 = { key_to_session := [], timeout := 0 } :=
  SessionLayer.zero_timeout_spec ⟨[(1, 10, 6), (2, 20, 0)], 0⟩ 6 rfl

/-- C6: the background sweep task sleeps `timeout / 2` between consecutive
sweeps, and — holding only a weak reference — once the last strong
reference is dropped (every upgrade from tick `k` on fails) it never
performs another sweep: the loop terminates at the first failed upgrade. -/
theorem sweep_task_spec (timeout : Duration) (alive : Nat → Bool) (k : Nat)
    (hdead : ∀ j, k ≤ j → alive j = false) :
    sweepInterval timeout = timeout / 2 ∧
    ∀ i, k ≤ i → sweepPerformed alive i = false := by
  refine ⟨rfl, ?_⟩
  intro i hk
  cases i with
  | zero => simpa [sweepPerformed] using hdead 0 hk
  | succ n =>
    have h1 : alive (n + 1) = false := hdead (n + 1) hk
    simp [sweepPerformed, h1]

/-- Witness for C6 at concrete inputs: with `timeout = 10` and a registry
dropped before the first tick, the interval is `5` and tick `3` performs no
sweep. -/
theorem sweep_task_spec_witness :
    sweepInterval 10 = 5 ∧ sweepPerformed (fun _ => false) 3 = false :=
  ⟨(sweep_task_spec 10 (fun _ => false) 0 (fun _ _ => rfl)).1,
   (sweep_task_spec 10 (fun _ => false) 0 (fun _ _ => rfl)).2 3 (Nat.zero_le 3)⟩

/-- C7: `MutSessionLayer::insert` wraps the payload in a fresh unlocked
exclusive lock (cell `m.next`, holding `v`) and delegates to
`SessionLayer::insert`; on a key collision it returns the fieldless
`MutSessionCollision` — a type distinct from `SessionCollision`, from which
neither the wrapped lock nor the payload is recoverable (all its values are
equal) — and the layer state, including the previously stored session for
that key, is unchanged. -/
theorem MutSessionLayer.mut_insert_spec [DecidableEq K] (m : MutSessionLayer K V)
    (key : K) (v : V) (now : Instant) :
    (lookupEntry m.session.key_to_session key = none →
      (m.insert key v now).1 = .ok () ∧
      (m.insert key v now).2.session.key_to_session =
        (key, m.next, now) :: m.session.key_to_session ∧
      (m.insert key v now).2.session.timeout = m.session.timeout ∧
      (m.insert key v now).2.payload m.next = v ∧
      (m.insert key v now).2.locked m.next = false ∧
      (m.insert key v now).2.next = m.next + 1) ∧
    ((lookupEntry m.session.key_to_session key).isSome →
      m.insert key v now = (.error ⟨⟩, m)) ∧
    (∀ e e' : MutSessionCollision, e = e') := by
  refine ⟨?_, ?_, ?_⟩
  · intro habs
    simp [MutSessionLayer.insert, SessionLayer.insert, habs]
  · intro hpres
    simp [MutSessionLayer.insert, SessionLayer.insert, hpres]
  · intro e e'
    cases e
    cases e'
    rfl

/-- Witness for C7 at concrete inputs: inserting key `1` into a fresh layer
stores payload `10` in unlocked cell `0`; inserting key `1` again fails
with the fieldless error and leaves the layer unchanged. -/
theorem MutSessionLayer.mut_insert_spec_witness :
    ((MutSessionLayer.new (K := Nat) (V := Nat) 5 0).insert 1 10 2).1 = .ok () ∧
    (((MutSessionLayer.new (K := Nat) (V := Nat) 5 0).insert 1 10 2).2.insert 1 99 3 =
      (.error ⟨⟩, ((MutSessionLayer.new (K := Nat) (V := Nat) 5 0).insert 1 10 2).2)) :=
  ⟨((MutSessionLayer.mut_insert_spec (MutSessionLayer.new 5 0) 1 10 2).1 (by decide)).1,
   (MutSessionLayer.mut_insert_spec
      ((MutSessionLayer.new (K := Nat) (V := Nat) 5 0).insert 1 10 2).2 1 99 3).2.1
     (by decide)⟩

/-- C4: `MutSessionLayer::get_mut` returns `None` exactly when the
underlying `SessionLayer::get` misses; on a hit it applies the registry
touch and acquires the lock handle that `SessionLayer::get` produced; and
in the insert/mutate scenario: after inserting payload `v` under an absent
key, `get_mut` on that key completes with a guard observing `v`, and after
mutating to `v'` through the guard and dropping it, the next `get_mut` on
the same key completes with a guard observing `v'`. -/
theorem MutSessionLayer.get_mut_spec [DecidableEq K] (m : MutSessionLayer K V)
    (key : K) (v v' : V) (n₁ n₂ n₃ : Instant)
    (habs : lookupEntry m.session.key_to_session key = none) :
    (∀ (l : MutSessionLayer K V) (k : K) (n : Instant),
      (l.get_mut k n = .absent ↔ (l.session.get k n).1 = none)) ∧
    (∀ (l : MutSessionLayer K V) (k : K) (n : Instant) (g : Nat)
        (st : MutSessionLayer K V),
      l.get_mut k n = .acquired g st →
        (l.session.get k n).1 = some g ∧ st.session = (l.session.get k n).2) ∧
    (let m₁ := (m.insert key v n₁).2
     let m₂ := getMutState m₁ (m₁.get_mut key n₂)
     let m₃ := guardDrop (guardWrite m₂ m.next v') m.next
     getMutGuard (m₁.get_mut key n₂) = some m.next ∧
     guardRead m₂ m.next = v ∧
     getMutGuard (m₃.get_mut key n₃) = some m.next ∧
     guardRead (getMutState m₃ (m₃.get_mut key n₃)) m.next = v') := by
  refine ⟨?_, ?_, ?_⟩
  · intro l k n
    unfold MutSessionLayer.get_mut
    cases hg : l.session.get k n with
    | mk o s =>
      cases o with
      | none => simp
      | some addr =>
        by_cases hl : l.locked addr <;> simp [hl]
  · intro l k n g st hacq
    unfold MutSessionLayer.get_mut at hacq
    cases hg : l.session.get k n with
    | mk o s =>
      rw [hg] at hacq
      cases o with
      | none => simp at hacq
      | some addr =>
        by_cases hl : l.locked addr
        · simp [hl] at hacq
        · simp [hl] at hacq
          obtain ⟨rfl, rfl⟩ := hacq
          exact ⟨rfl, rfl⟩
  · simp [MutSessionLayer.insert, SessionLayer.insert, habs, MutSessionLayer.get_mut,
      SessionLayer.get, lookupEntry, touchEntry, getMutGuard, getMutState, guardRead,
      guardWrite, guardDrop]

/-- Witness for C4 at concrete inputs: on a fresh layer, inserting payload
`10` under key `1` and calling `get_mut 1` acquires guard `0` observing
`10`. -/
theorem MutSessionLayer.get_mut_spec_witness :
    getMutGuard
        (((MutSessionLayer.new (K := Nat) (V := Nat) 5 0).insert 1 10 1).2.get_mut 1 2) =
      some 0 ∧
    guardRead
        (getMutState ((MutSessionLayer.new (K := Nat) (V := Nat) 5 0).insert 1 10 1).2
          (((MutSessionLayer.new (K := Nat) (V := Nat) 5 0).insert 1 10 1).2.get_mut 1 2))
        0 = 10 :=
  ⟨((MutSessionLayer.get_mut_spec (MutSessionLayer.new 5 0) 1 10 11 1 2 3 (by decide)).2.2).1,
   ((MutSessionLayer.get_mut_spec (MutSessionLayer.new 5 0) 1 10 11 1 2 3 (by decide)).2.2).2.1⟩

/-- Invariant of the concurrent system: in any reachable state, two live
guards on the same lock belong to the same task. -/
theorem guards_exclusive [DecidableEq K] {t : Duration} {d : V} {s : ConcState K V}
    (hreach : ConcReachable (ConcState.init t d) s) :
    ∀ (A B : TaskId) (addr : Nat),
      (A, addr) ∈ s.guards → (B, addr) ∈ s.guards → A = B := by
  induction hreach with
  | refl =>
    intro A B addr hA hB
    simp [ConcState.init] at hA
  | tail hsteps hstep ih =>
    intro A B addr hA hB
    cases hstep with
    | acquire task k n addr₀ sreg l gs hget hfree =>
      rcases List.mem_cons.mp hA with h1 | h1 <;> rcases List.mem_cons.mp hB with h2 | h2
      · rw [Prod.mk.injEq] at h1 h2
        rw [h1.1, h2.1]
      · obtain ⟨rfl, rfl⟩ := Prod.mk.injEq .. ▸ h1
        exact absurd h2 (hfree B)
      · obtain ⟨rfl, rfl⟩ := Prod.mk.injEq .. ▸ h2
        exact absurd h1 (hfree A)
      · exact ih A B addr h1 h2
    | mutate task addr₀ v l gs hmem => exact ih A B addr hA hB
    | dropGuard task addr₀ l gs hmem =>
      exact ih A B addr (List.mem_of_mem_erase hA) (List.mem_of_mem_erase hB)
    | insertStep k v n l l' r gs heq => exact ih A B addr hA hB
    | sweep n l gs => exact ih A B addr hA hB

/-- C5: guard lifetimes for the same lock never overlap.  In every
reachable state at most one task holds a guard for a given lock, and a step
in which task `B` newly completes `get_mut` on a lock is enabled only when
no task at all held a guard for that lock before the step — so while task
`A` holds the guard, `B`'s `get_mut` on the same key cannot complete. -/
theorem ConcState.mutual_exclusion [DecidableEq K] (t : Duration) (d : V)
    (s : ConcState K V) (hreach : ConcReachable (ConcState.init t d) s) :
    (∀ (A B : TaskId) (addr : Nat),
      (A, addr) ∈ s.guards → (B, addr) ∈ s.guards → A = B) ∧
    (∀ (s' : ConcState K V) (B : TaskId) (addr : Nat),
      ConcStep s s' → (B, addr) ∈ s'.guards → (B, addr) ∉ s.guards →
      ∀ T, (T, addr) ∉ s.guards) := by
  constructor
  · exact guards_exclusive hreach
  · intro s' B addr hstep hnew hold
    cases hstep with
    | acquire task k n addr₀ sreg l gs hget hfree =>
      rcases List.mem_cons.mp hnew with h1 | h1
      · obtain ⟨rfl, rfl⟩ := Prod.mk.injEq .. ▸ h1
        exact hfree
      · exact absurd h1 hold
    | mutate task addr₀ v l gs hmem => exact absurd hnew hold
    | dropGuard task addr₀ l gs hmem =>
      exact absurd (List.mem_of_mem_erase hnew) hold
    | insertStep k v n l l' r gs heq => exact absurd hnew hold
    | sweep n l gs => exact absurd hnew hold

/-- Witness for C5 at a concrete reachable state: after inserting key `1`
and task `3` acquiring its guard, the state's only live guard for lock `0`
is task `3`'s, so two holders of lock `0` coincide. -/
theorem ConcState.mutual_exclusion_witness :
    ((3 : TaskId), (0 : Nat)) ∈ [((3 : TaskId), (0 : Nat))] ∧ (3 : TaskId) = 3 := by
  refine ⟨by simp, ?_⟩
  exact (ConcState.mutual_exclusion (K := Nat) (V := Nat) 5 0 ⟨_, [(3, 0)]⟩
    (Relation.ReflTransGen.tail
      (Relation.ReflTransGen.tail Relation.ReflTransGen.refl
        (ConcStep.insertStep 1 10 1 _ _ _ _ rfl))
      (ConcStep.acquire 3 1 2 0 _ _ _ rfl (by simp)))).1 3 3 0 (by simp) (by simp)

/-- A lookup that misses still misses after a `filter`. -/
theorem lookupEntry_filter_none [DecidableEq K] {m : List (Entry K H)} {key : K}
    (p : Entry K H → Bool) (hb : lookupEntry m key = none) :
    lookupEntry (m.filter p) key = none := by
  rw [lookupEntry_eq_none] at hb ⊢
  intro hmem
  apply hb
  simp only [entryKeys, List.mem_map] at hmem ⊢
  obtain ⟨e, he, rfl⟩ := hmem
  exact ⟨e, List.mem_of_mem_filter he, rfl⟩

/-- Per-operation monotonicity: if `key` is stored with stamp `t` before an
operation running at `now ≥ t` and stored with stamp `t'` after it, then
`t ≤ t'`. -/
theorem applyOp_stamp_mono [DecidableEq K] {s : SessionLayer K H} {op : RegOp K H}
    {now : Instant} {key : K} {h h' : H} {t t' : Instant}
    (hnd : (entryKeys s.key_to_session).Nodup) (hle : t ≤ now)
    (hb : lookupEntry s.key_to_session key = some (h, t))
    (ha : lookupEntry (applyOp s op now).key_to_session key = some (h', t')) :
    t ≤ t' := by
  cases op with
  | getOp k' =>
    cases hg : lookupEntry s.key_to_session k' with
    | none =>
      simp only [applyOp, SessionLayer.get, hg] at ha
      rw [hb] at ha
      obtain ⟨-, rfl⟩ : h = h' ∧ t = t' := by simpa using ha
      exact le_refl t
    | some q =>
      obtain ⟨h₀, t₀⟩ := q
      simp only [applyOp, SessionLayer.get, hg] at ha
      by_cases hk : k' = key
      · subst hk
        rw [lookupEntry_touch_self, hb] at ha
        obtain ⟨-, rfl⟩ : h = h' ∧ now = t' := by simpa using ha
        exact hle
      · rw [lookupEntry_touch_ne _ _ (fun heq => hk heq.symm), hb] at ha
        obtain ⟨-, rfl⟩ : h = h' ∧ t = t' := by simpa using ha
        exact le_refl t
  | insertOp k' h₀ =>
    by_cases hp : (lookupEntry s.key_to_session k').isSome
    · simp only [applyOp, SessionLayer.insert, hp, if_pos] at ha
      rw [hb] at ha
      obtain ⟨-, rfl⟩ : h = h' ∧ t = t' := by simpa using ha
      exact le_refl t
    · simp only [applyOp, SessionLayer.insert, hp, if_neg, if_false] at ha
      by_cases hk : k' = key
      · subst hk
        rw [hb] at hp
        simp at hp
      · simp only [lookupEntry] at ha
        rw [if_neg hk, hb] at ha
        obtain ⟨-, rfl⟩ : h = h' ∧ t = t' := by simpa using ha
        exact le_refl t
  | sweepOp =>
    simp only [applyOp, SessionLayer.remove_outdated] at ha
    rw [lookupEntry_filter hnd, hb] at ha
    by_cases hc : now - t < s.timeout
    · simp only [hc, decide_eq_true_eq, if_pos] at ha
      obtain ⟨-, rfl⟩ : h = h' ∧ t = t' := by simpa using ha
      exact le_refl t
    · simp only [decide_eq_true_eq] at ha
      rw [if_neg hc] at ha
      exact Option.noConfusion ha

/-- An operation can only give an absent key a fresh entry stamped at the
operation's own `now` (an insert); it never conjures an older stamp. -/
theorem applyOp_fresh_stamp [DecidableEq K] {s : SessionLayer K H} {op : RegOp K H}
    {now : Instant} {key : K} {h' : H} {t' : Instant}
    (hb : lookupEntry s.key_to_session key = none)
    (ha : lookupEntry (applyOp s op now).key_to_session key = some (h', t')) :
    t' = now := by
  cases op with
  | getOp k' =>
    cases hg : lookupEntry s.key_to_session k' with
    | none =>
      simp only [applyOp, SessionLayer.get, hg] at ha
      rw [hb] at ha
      exact Option.noConfusion ha
    | some q =>
      obtain ⟨h₀, t₀⟩ := q
      simp only [applyOp, SessionLayer.get, hg] at ha
      by_cases hk : k' = key
      · subst hk
        rw [lookupEntry_touch_self, hb] at ha
        exact Option.noConfusion ha
      · rw [lookupEntry_touch_ne _ _ (fun heq => hk heq.symm), hb] at ha
        exact Option.noConfusion ha
  | insertOp k' h₀ =>
    by_cases hp : (lookupEntry s.key_to_session k').isSome
    · simp only [applyOp, SessionLayer.insert, hp, if_pos] at ha
      rw [hb] at ha
      exact Option.noConfusion ha
    · simp only [applyOp, SessionLayer.insert, hp, if_neg, if_false] at ha
      by_cases hk : k' = key
      · subst hk
        simp only [lookupEntry, if_true] at ha
        obtain ⟨-, rfl⟩ : h₀ = h' ∧ now = t' := by simpa using ha
        rfl
      · simp only [lookupEntry] at ha
        rw [if_neg hk, hb] at ha
        exact Option.noConfusion ha
  | sweepOp =>
    simp only [applyOp, SessionLayer.remove_outdated] at ha
    rw [lookupEntry_filter_none _ hb] at ha
    exact Option.noConfusion ha

/-- An operation at instant `now` keeps every stored stamp at most `now`,
provided the stamps were at most `n ≤ now` before (monotonic clock). -/
theorem applyOp_stampsLE [DecidableEq K] {s : SessionLayer K H} {op : RegOp K H}
    {n now : Instant} (hst : stampsLE s.key_to_session n) (hle : n ≤ now) :
    stampsLE (applyOp s op now).key_to_session now := by
  cases op with
  | getOp k' =>
    cases hg : lookupEntry s.key_to_session k' with
    | none =>
      simp only [applyOp, SessionLayer.get, hg]
      intro e he
      exact le_trans (hst e he) hle
    | some q =>
      obtain ⟨h₀, t₀⟩ := q
      simp only [applyOp, SessionLayer.get, hg]
      intro e he
      rcases mem_touchEntry he with hm | hnow
      · exact le_trans (hst e hm) hle
      · exact le_of_eq hnow
  | insertOp k' h₀ =>
    by_cases hp : (lookupEntry s.key_to_session k').isSome
    · simp only [applyOp, SessionLayer.insert, hp, if_pos]
      intro e he
      exact le_trans (hst e he) hle
    · simp only [applyOp, SessionLayer.insert, hp, if_neg, if_false]
      intro e he
      rcases List.mem_cons.mp he with rfl | hm
      · exact le_refl now
      · exact le_trans (hst e hm) hle
  | sweepOp =>
    simp only [applyOp, SessionLayer.remove_outdated]
    intro e he
    exact le_trans (hst e (List.mem_of_mem_filter he)) hle

/-- Operations preserve key uniqueness (the `HashMap` invariant). -/
theorem applyOp_nodup [DecidableEq K] {s : SessionLayer K H} {op : RegOp K H}
    {now : Instant} (hnd : (entryKeys s.key_to_session).Nodup) :
    (entryKeys (applyOp s op now).key_to_session).Nodup := by
  cases op with
  | getOp k' =>
    cases hg : lookupEntry s.key_to_session k' with
    | none => simpa [applyOp, SessionLayer.get, hg] using hnd
    | some q =>
      obtain ⟨h₀, t₀⟩ := q
      simp only [applyOp, SessionLayer.get, hg]
      rw [entryKeys_touch]
      exact hnd
  | insertOp k' h₀ =>
    by_cases hp : (lookupEntry s.key_to_session k').isSome
    · simpa [applyOp, SessionLayer.insert, hp] using hnd
    · simp only [applyOp, SessionLayer.insert, hp, if_neg, if_false]
      have hnotin : k' ∉ entryKeys s.key_to_session := by
        rw [← lookupEntry_eq_none]
        cases hq : lookupEntry s.key_to_session k'
        · rfl
        · rw [hq] at hp
          simp at hp
      simp only [entryKeys, List.map_cons]
      exact List.nodup_cons.mpr ⟨by simpa [entryKeys] using hnotin, hnd⟩
  | sweepOp =>
    simpa [applyOp, SessionLayer.remove_outdated] using entryKeys_filter_nodup hnd _

/-- Core induction for timestamp monotonicity: along a run whose instants
are non-decreasing and start no earlier than every stored stamp, every
stamp later stored under `key` is at least `t`, provided the stamp
currently under `key` (if any) is at least `t` and `t` is below the clock.
-/
theorem runOps_stamp_mono_aux [DecidableEq K] (key : K) (t : Instant)
    (ops : List (RegOp K H × Instant)) :
    ∀ (s : SessionLayer K H) (n : Instant),
      (entryKeys s.key_to_session).Nodup →
      stampsLE s.key_to_session n → timesMono n ops → t ≤ n →
      (∀ h₀ t₀, lookupEntry s.key_to_session key = some (h₀, t₀) → t ≤ t₀) →
      ∀ h' t', lookupEntry (runOps s ops).key_to_session key = some (h', t') →
        t ≤ t' := by
  induction ops with
  | nil =>
    intro s n _ _ _ _ hcur h' t' ha
    exact hcur h' t' (by simpa [runOps] using ha)
  | cons p rest ih =>
    obtain ⟨op, now⟩ := p
    intro s n hnd hst hmono hle hcur h' t' ha
    obtain ⟨hn, hmono'⟩ := hmono
    refine ih (applyOp s op now) now (applyOp_nodup hnd) (applyOp_stampsLE hst hn)
      hmono' (le_trans hle hn) ?_ h' t' (by simpa [runOps] using ha)
    intro h₀ t₀ hl
    cases hb : lookupEntry s.key_to_session key with
    | none =>
      rw [applyOp_fresh_stamp hb hl]
      exact le_trans hle hn
    | some q =>
      obtain ⟨h₂, t₂⟩ := q
      have h1 : t ≤ t₂ := hcur h₂ t₂ hb
      have h2 : t₂ ≤ now := le_trans (hst _ (mem_of_lookupEntry hb)) hn
      exact le_trans h1 (applyOp_stamp_mono hnd h2 hb hl)

/-- C8: under a monotonic clock (run instants non-decreasing and no earlier
than any stored stamp), the last-access timestamp observed under a key is
monotonically non-decreasing across any sequence of `get`, `insert` and
sweep operations: if `key` holds stamp `t` before the run and stamp `t'`
after it, then `t ≤ t'` — `get` overwrites with a later-or-equal `now`,
`insert` stamps with the current `now`, and a sweep never modifies a
retained entry's timestamp. -/
theorem SessionLayer.timestamp_monotone [DecidableEq K] (s : SessionLayer K H)
    (ops : List (RegOp K H × Instant)) (n : Instant) (key : K) (h h' : H)
    (t t' : Instant)
    (hnd : (entryKeys s.key_to_session).Nodup)
    (hst : stampsLE s.key_to_session n)
    (hmono : timesMono n ops)
    (hbefore : lookupEntry s.key_to_session key = some (h, t))
    (hafter : lookupEntry (runOps s ops).key_to_session key = some (h', t')) :
    t ≤ t' := by
  refine runOps_stamp_mono_aux key t ops s n hnd hst hmono
    (hst _ (mem_of_lookupEntry hbefore)) ?_ h' t' hafter
  intro h₀ t₀ hl
  rw [hbefore] at hl
  obtain ⟨-, rfl⟩ : h = h₀ ∧ t = t₀ := by simpa using hl
  exact le_refl t

/-- Witness for C8 at concrete inputs: starting from stamp `0` under key
`1`, a `get` at instant `2` followed by a sweep at instant `3` (timeout
`5`) leaves key `1` stamped `2 ≥ 0`. -/
theorem SessionLayer.timestamp_monotone_witness :
    lookupEntry
        (runOps (SessionLayer.mk (K := Nat) (H := Nat) [(1, 10, 0)] 5)
          [(RegOp.getOp 1, 2), (RegOp.sweepOp, 3)]).key_to_session 1 = some (10, 2) ∧
    (0 : Instant) ≤ 2 :=
  ⟨by decide,
   SessionLayer.timestamp_monotone ⟨[(1, 10, 0)], 5⟩
     [(RegOp.getOp 1, 2), (RegOp.sweepOp, 3)] 0 1 10 10 0 2 (by decide)
     (by intro e he; simp at he; simp [he]) ⟨by decide, by decide, trivial⟩
     (by decide) (by decide)⟩

end SessionCrate
